import Mathlib

/-!
Verification of the PME-Nexus project tracker (server `server.js` and the
client script) against its natural-language specification.

The data model and operations are shallowly embedded: collections become
lists of structures, JavaScript nullable string fields become
`Option String` (with JS truthiness made explicit, since `""` and `null`
are both falsy there), `parseInt`-ed progress values become `Int`, and the
stateful client sync queue becomes a labelled transition system.
-/

namespace PME

/-- Truthiness of a JS nullable string field: `null`/`undefined` and the
empty string are falsy, every other string is truthy.  The source tests
fields like `project.completionDate` with `!` and `&&`, so the distinction
between `null` and `""` matters. -/
def jsTruthyStr : Option String → Bool
  | none => false
  | some s => s ≠ ""

/-- A user record (collection `users`); only the fields the verified code
paths read are kept. -/
structure User where
  id : String
  username : String
  email : String
  role : String
  deriving DecidableEq, Repr

/-- A project record (collection `projects`).  `completionDate` is the
derived completion timestamp (`null` modelled as `none`). -/
structure Project where
  id : String
  name : String
  description : String
  createdAt : String
  completionDate : Option String
  deriving DecidableEq, Repr

/-- A stage record (collection `stages`).  `progress` is the result of the
`parseInt` coercion the source applies before comparing with `100`; date
fields stay strings because the source compares them lexicographically. -/
structure Stage where
  id : String
  projectId : String
  name : String
  plannedStart : String
  plannedEnd : String
  actualStart : String
  actualEnd : String
  progress : Int
  status : String
  deriving DecidableEq, Repr

/-- A notification record (collection `notifications`). -/
structure Notification where
  id : String
  userId : String
  projectId : String
  stageId : String
  message : String
  read : Bool
  createdAt : String
  deriving DecidableEq, Repr

/-- A delay record (collection `delayRecords`); opaque to the verified
code paths. -/
structure DelayRecord where
  id : String
  projectId : String
  stageId : String
  reason : String
  impact : String
  createdAt : String
  deriving DecidableEq, Repr

/-- A lessons-learned record (collection `lessonsLearned`); opaque to the
verified code paths. -/
structure LessonLearned where
  id : String
  projectId : String
  stageId : Option String
  description : String
  recommendation : String
  createdAt : String
  deriving DecidableEq, Repr

/-- A project report record (collection `projectReports`); opaque to the
verified code paths. -/
structure ProjectReport where
  id : String
  projectId : String
  body : String
  generatedAt : String
  deriving DecidableEq, Repr

/-- The whole persisted document (`database.json`): the seven named
collections.  The `|| []` defaults the server applies are folded into the
typing (collections are always arrays here). -/
structure Doc where
  users : List User
  projects : List Project
  stages : List Stage
  notifications : List Notification
  delayRecords : List DelayRecord
  lessonsLearned : List LessonLearned
  projectReports : List ProjectReport
  deriving DecidableEq, Repr

/-! ## Server-side completion evaluation (`server.js`, `isProjectCompleted`
and `evaluateProjectCompletionStatus`) -/

/-- Source `isProjectCompleted(projectId, stages)`: the project's stages are the
ones whose `projectId` strictly equals the given id; a project with zero
stages is not completed; otherwise every stage must have
`parseInt(progress) === 100`. -/
def isProjectCompleted (projectId : String) (stages : List Stage) : Bool :=
  let projectStages := stages.filter (fun s => s.projectId == projectId)
  if projectStages.length = 0 then false
  else projectStages.all (fun s => s.progress == 100)

/-- One iteration of the `projects.forEach` body of
`evaluateProjectCompletionStatus`: sets `completionDate` to `now` when the
project became complete and the field was falsy, clears it when the
project is no longer complete and the field was truthy; the second
component reports whether the record changed. -/
def evalStep (now : String) (stages : List Stage) (p : Project) : Project × Bool :=
  let completed := isProjectCompleted p.id stages
  if completed && !(jsTruthyStr p.completionDate) then
    ({ p with completionDate := some now }, true)
  else if !completed && jsTruthyStr p.completionDate then
    ({ p with completionDate := none }, true)
  else (p, false)

/-- Source `evaluateProjectCompletionStatus` restricted to its two inputs: maps
`evalStep` over the projects and accumulates the `updated` flag. -/
def evaluateProjectCompletionStatus (now : String) (stages : List Stage) :
    List Project → List Project × Bool
  | [] => ([], false)
  | p :: ps =>
    let r := evalStep now stages p
    let rest := evaluateProjectCompletionStatus now stages ps
    (r.1 :: rest.1, r.2 || rest.2)

/-! ## Client-side completion evaluation (`evaluateProjectCompletion` in
the client script) -/

/-- The client's inline completion test:
`projectStages.length > 0 && projectStages.every(s => parseInt(s.progress) === 100)`. -/
def clientCompletedCheck (p : Project) (stages : List Stage) : Bool :=
  let projectStages := stages.filter (fun s => s.projectId == p.id)
  decide (projectStages.length > 0) && projectStages.all (fun s => s.progress == 100)

/-- One iteration of the `projects.forEach` body of the client's
`evaluateProjectCompletion`. -/
def evalStepClient (now : String) (stages : List Stage) (p : Project) : Project × Bool :=
  let isCompleted := clientCompletedCheck p stages
  if isCompleted && !(jsTruthyStr p.completionDate) then
    ({ p with completionDate := some now }, true)
  else if !isCompleted && jsTruthyStr p.completionDate then
    ({ p with completionDate := none }, true)
  else (p, false)

/-- The client's `evaluateProjectCompletion` over its two collections. -/
def evaluateProjectCompletionClient (now : String) (stages : List Stage) :
    List Project → List Project × Bool
  | [] => ([], false)
  | p :: ps =>
    let r := evalStepClient now stages p
    let rest := evaluateProjectCompletionClient now stages ps
    (r.1 :: rest.1, r.2 || rest.2)

/-! ## Stage status computation (client script, `updateAllStageStatuses`
and `handleSaveStage`) -/

/-- Lexicographic comparison of character lists by code point (helper
for `jsStrLt`). -/
def charsLt : List Char → List Char → Bool
  | [], [] => false
  | [], _ :: _ => true
  | _ :: _, [] => false
  | a :: as, b :: bs =>
    if a.toNat < b.toNat then true
    else if b.toNat < a.toNat then false
    else charsLt as bs

/-- JS `a < b` on strings: lexicographic by code unit (identical to code
points on the date strings compared here). -/
def jsStrLt (a b : String) : Bool :=
  charsLt a.data b.data

/-- The stage status rule of `updateAllStageStatuses`:
`progress === 100` gives `Completed`, else `todayStr > plannedEnd`
(JS lexicographic string comparison) gives `Behind Schedule`, else
`On Track`. -/
def computeStageStatus (progress : Int) (plannedEnd today : String) : String :=
  if progress == 100 then "Completed"
  else if jsStrLt plannedEnd today then "Behind Schedule"
  else "On Track"

/-- The status formula inlined in `handleSaveStage` (same shape, written
there a second time over the form's values). -/
def handleSaveStageStatus (progress : Int) (plannedEnd today : String) : String :=
  if progress == 100 then "Completed"
  else if jsStrLt plannedEnd today then "Behind Schedule"
  else "On Track"

/-- Character-list prefix test (helper for the substring test below). -/
def charsStartsWith : List Char → List Char → Bool
  | [], _ => true
  | _ :: _, [] => false
  | a :: as, b :: bs => a == b && charsStartsWith as bs

/-- Character-list substring test (helper for `strIncludes`). -/
def charsHasInfix (needle : List Char) : List Char → Bool
  | [] => charsStartsWith needle []
  | c :: cs => charsStartsWith needle (c :: cs) || charsHasInfix needle cs

/-- JS `message.includes(needle)` on strings. -/
def strIncludes (hay needle : String) : Bool :=
  charsHasInfix needle.data hay.data

/-- The notification text built by `createBehindScheduleNotification`. -/
def behindMessage (stageName projectName : String) : String :=
  "Stage \"" ++ stageName ++ "\" in project \"" ++ projectName ++ "\" is behind schedule."

/-- Source test `u.role === 'Admin' || u.role === 'Project Manager'`. -/
def isAdminOrPM (u : User) : Bool :=
  u.role == "Admin" || u.role == "Project Manager"

/-- Source `createBehindScheduleNotification(stage)`: if some notification for
this stage whose message contains `"behind schedule"` already exists the
list is returned unchanged; otherwise one notification per Admin or
Project Manager user is appended, in user-list order.  `nowMs` is
`Date.now()` (used for the ids) and `nowIso` is
`new Date().toISOString()`. -/
def createBehindScheduleNotification (nowMs : Nat) (nowIso : String)
    (users : List User) (projects : List Project) (stage : Stage)
    (notifications : List Notification) : List Notification :=
  if notifications.any (fun n => n.stageId == stage.id && strIncludes n.message "behind schedule") then
    notifications
  else
    let project? := projects.find? (fun p => p.id == stage.projectId)
    let projectName := match project? with | some p => p.name | none => ""
    let projectIdStr := match project? with | some p => p.id | none => ""
    let targetUsers := users.filter isAdminOrPM
    notifications ++ targetUsers.map (fun u =>
      { id := toString nowMs ++ "-" ++ u.id
        userId := u.id
        projectId := projectIdStr
        stageId := stage.id
        message := behindMessage stage.name projectName
        read := false
        createdAt := nowIso })

/-- The `allStages.forEach` loop of `updateAllStageStatuses`: recomputes
each stage's status, and on a transition into `Behind Schedule` threads
the notification list through `createBehindScheduleNotification` (the
client reads and writes the `notifications` collection inside the loop).
Returns the updated stages, the final notifications and the `dbUpdated`
flag. -/
def updateStagesLoop (today : String) (nowMs : Nat) (nowIso : String)
    (users : List User) (projects : List Project) :
    List Stage → List Notification → List Stage × List Notification × Bool
  | [], notifications => ([], notifications, false)
  | st :: rest, notifications =>
    let newStatus := computeStageStatus st.progress st.plannedEnd today
    if st.status == newStatus then
      let r := updateStagesLoop today nowMs nowIso users projects rest notifications
      (st :: r.1, r.2.1, r.2.2)
    else
      let st' := { st with status := newStatus }
      let notifications' :=
        if newStatus == "Behind Schedule" then
          createBehindScheduleNotification nowMs nowIso users projects st' notifications
        else notifications
      let r := updateStagesLoop today nowMs nowIso users projects rest notifications'
      (st' :: r.1, r.2.1, true)

/-- Source `updateAllStageStatuses`: run the stage loop, then the client
completion evaluation over the updated stages (the client reads the
mutated `stages` collection).  Returns
(stages, notifications, projects, dbUpdated). -/
def updateAllStageStatuses (today : String) (nowMs : Nat) (nowIso : String)
    (users : List User) (projects : List Project) (stages : List Stage)
    (notifications : List Notification) :
    List Stage × List Notification × List Project × Bool :=
  let r := updateStagesLoop today nowMs nowIso users projects stages notifications
  let pr := evaluateProjectCompletionClient nowIso r.1 projects
  (r.1, r.2.1, pr.1, r.2.2)

/-- A stage the client loop is about to move into `Behind Schedule`:
its stored status differs from the recomputed one and the recomputed one
is `Behind Schedule`. -/
def transitionsToBehind (today : String) (st : Stage) : Bool :=
  !(st.status == computeStageStatus st.progress st.plannedEnd today) &&
    (computeStageStatus st.progress st.plannedEnd today == "Behind Schedule")

/-! ## Server query handlers (`server.js`, routes
`/api/projects/completed`, `/api/projects/in-progress`,
`/api/projects/evaluate`)

`new Date(p.completionDate)` / `getMonth` / `getFullYear` are an external
JS built-in, so the handlers are parameterised by a date parser
`parse : String → Option (Int × Int)` returning `(getMonth(), getFullYear())`
on success and `none` when the string does not parse (the `NaN` case, in
which every `===` comparison against the filter value is false). -/

/-- JS `Math.round(sum / count)` for an integer sum and a positive count:
`⌊sum/count + 1/2⌋`, computed exactly over the integers. -/
def jsRoundDiv (sum : Int) (count : Nat) : Int :=
  Int.fdiv (2 * sum + count) (2 * count)

/-- The `totalProgress` enrichment: average stage progress rounded, `0`
for a project with no stages. -/
def avgProgress (pStages : List Stage) : Int :=
  if pStages.length = 0 then 0
  else jsRoundDiv ((pStages.map (fun s => s.progress)).sum) pStages.length

/-- The `...p, status, totalProgress, stageCount` objects the two query
handlers respond with. -/
structure EnrichedProject where
  base : Project
  status : String
  totalProgress : Int
  stageCount : Nat
  deriving DecidableEq, Repr

/-- The base filter of the completed-projects handler:
`isProjectCompleted(p.id, stages) && p.completionDate` (the second
conjunct is JS truthiness). -/
def completedBase (projects : List Project) (stages : List Stage) : List Project :=
  projects.filter (fun p => isProjectCompleted p.id stages && jsTruthyStr p.completionDate)

/-- The month/year filter of the completed-projects handler: applied only
when `filterMonth !== null || filterYear !== null`; a given month matches
when `getMonth() + 1 === month`, a given year when
`getFullYear() === year`, and an unparseable date matches neither. -/
def completedFiltered (parse : String → Option (Int × Int))
    (filterMonth filterYear : Option Int)
    (projects : List Project) (stages : List Stage) : List Project :=
  let completedProjects := completedBase projects stages
  if filterMonth.isSome || filterYear.isSome then
    completedProjects.filter (fun p =>
      let d := parse (p.completionDate.getD "")
      let matchMonth := match filterMonth with
        | some m => (match d with | some md => md.1 + 1 == m | none => false)
        | none => true
      let matchYear := match filterYear with
        | some y => (match d with | some md => md.2 == y | none => false)
        | none => true
      matchMonth && matchYear)
  else completedProjects

/-- Common result shape of the three GET project handlers: HTTP status,
the store as left on disk, whether a durable write was performed, and the
response payload. -/
structure HandlerOut (ρ : Type) where
  status : Nat
  db : Option Doc
  didWrite : Bool
  response : Option ρ
  deriving Repr

/-- Route `GET /api/projects/completed`: read, re-evaluate completion,
**unconditionally** persist, filter, enrich.  `none` input models a
failed `readDB` (500, nothing written). -/
def completedHandler (parse : String → Option (Int × Int)) (now : String)
    (filterMonth filterYear : Option Int) (dbo : Option Doc) :
    HandlerOut (Nat × List EnrichedProject) :=
  match dbo with
  | none => ⟨500, none, false, none⟩
  | some db =>
    let projects' := (evaluateProjectCompletionStatus now db.stages db.projects).1
    let db' := { db with projects := projects' }
    let stages := db'.stages
    let results := completedFiltered parse filterMonth filterYear projects' stages
    let enriched := results.map (fun p =>
      let pStages := stages.filter (fun s => s.projectId == p.id)
      ⟨p, "Completed", avgProgress pStages, pStages.length⟩)
    ⟨200, some db', true, some (enriched.length, enriched)⟩

/-- Route `GET /api/projects/in-progress`: read, re-evaluate completion,
**unconditionally** persist, keep projects that are not completed,
enrich. -/
def inProgressHandler (now : String) (dbo : Option Doc) :
    HandlerOut (Nat × List EnrichedProject) :=
  match dbo with
  | none => ⟨500, none, false, none⟩
  | some db =>
    let projects' := (evaluateProjectCompletionStatus now db.stages db.projects).1
    let db' := { db with projects := projects' }
    let stages := db'.stages
    let results := projects'.filter (fun p => !(isProjectCompleted p.id stages))
    let enriched := results.map (fun p =>
      let pStages := stages.filter (fun s => s.projectId == p.id)
      ⟨p, "In Progress", avgProgress pStages, pStages.length⟩)
    ⟨200, some db', true, some (enriched.length, enriched)⟩

/-- One line of the `/api/projects/evaluate` summary:
`{id, name, completed, completionDate: p.completionDate || null}` (the
`|| null` maps a falsy stored value back to `null`). -/
structure EvalSummaryRow where
  id : String
  name : String
  completed : Bool
  completionDate : Option String
  deriving DecidableEq, Repr

/-- Route `GET /api/projects/evaluate`: read, re-evaluate completion, persist
**only when the evaluator reports an update**, and answer with the
summary. -/
def evaluateHandler (now : String) (dbo : Option Doc) :
    HandlerOut (Bool × List EvalSummaryRow) :=
  match dbo with
  | none => ⟨500, none, false, none⟩
  | some db =>
    let r := evaluateProjectCompletionStatus now db.stages db.projects
    let db' := { db with projects := r.1 }
    let summary := r.1.map (fun p =>
      { id := p.id, name := p.name,
        completed := isProjectCompleted p.id db'.stages,
        completionDate := if jsTruthyStr p.completionDate then p.completionDate else none })
    ⟨200, if r.2 then some db' else some db, r.2, some (r.2, summary)⟩

/-! ## Write Serializer (`server.js`, `writeQueue` / `writeDB`)

`writeDB` chains every mutation onto the single promise `writeQueue`, so
the queued callbacks run one after another in enqueue order.  Each
callback synchronously attempts `fs.writeFileSync` inside `try/catch`:
on success it resolves that mutation's promise, on failure it rejects it,
and in both cases the callback itself returns normally, so the chain
continues with the next callback.  The model runs the enqueued jobs
(payload together with the success of its `writeFileSync`, the I/O
oracle) in order and returns the attempt log, the per-promise outcomes
(`true` = resolved) and the final file content. -/
def runWriteQueue {α : Type} (file : Option α) :
    List (α × Bool) → List α × List Bool × Option α
  | [] => ([], [], file)
  | (d, ok) :: rest =>
    let r := runWriteQueue (if ok then some d else file) rest
    (d :: r.1, ok :: r.2.1, r.2.2)

/-- The last successfully written payload (or the initial file content),
phrased as a left fold over the job list. -/
def lastSuccessfulWrite {α : Type} (file : Option α) (jobs : List (α × Bool)) : Option α :=
  jobs.foldl (fun acc j => if j.2 then some j.1 else acc) file

/-! ## Client Sync Queue (`syncToBackend` / `flushPendingSyncs`)

The client state is `pendingSyncs` (the retry queue), the `isSyncing`
flag, and the requests a running flush still has in flight.  The atomic
events are the JS callbacks:
* `pushFail k d` — the `.catch` of `syncToBackend`: coalesce `(k, d)`
  into `pendingSyncs` (replace the payload of the first entry with key
  `k`, else append);
* `flushStart` — `flushPendingSyncs` past its guard
  (`isSyncing || pendingSyncs.length === 0` returns): copy the queue
  into the in-flight batch and clear it, set `isSyncing`;
* `flushItemOk` / `flushItemFail` — one batch request settles; on
  failure the `.catch` **appends** the item back onto `pendingSyncs`
  (no coalescing there);
* `flushDone` — the `.finally` of `Promise.all`: all batch items have
  settled, clear `isSyncing`. -/
structure SQState (α : Type) where
  pendingSyncs : List (String × α)
  isSyncing : Bool
  inflight : List (String × α)
  deriving Repr

/-- The `.catch` of `syncToBackend`: `findIndex` on the key, replace that
entry's payload, else push. -/
def coalesceRetry {α : Type} : List (String × α) → String → α → List (String × α)
  | [], k, d => [(k, d)]
  | p :: ps, k, d => if p.1 == k then (k, d) :: ps else p :: coalesceRetry ps k d

/-- One atomic client callback, as a labelled transition. -/
inductive SQStep {α : Type} : SQState α → SQState α → Prop
  | pushFail (σ : SQState α) (k : String) (d : α) :
      SQStep σ { σ with pendingSyncs := coalesceRetry σ.pendingSyncs k d }
  | flushStart (σ : SQState α) :
      σ.isSyncing = false → σ.pendingSyncs ≠ [] →
      SQStep σ ⟨[], true, σ.pendingSyncs⟩
  | flushItemOk (σ : SQState α) (pre post : List (String × α)) (it : String × α) :
      σ.inflight = pre ++ it :: post →
      SQStep σ { σ with inflight := pre ++ post }
  | flushItemFail (σ : SQState α) (pre post : List (String × α)) (it : String × α) :
      σ.inflight = pre ++ it :: post →
      SQStep σ { σ with inflight := pre ++ post,
                        pendingSyncs := σ.pendingSyncs ++ [it] }
  | flushDone (σ : SQState α) :
      σ.inflight = [] → σ.isSyncing = true →
      SQStep σ { σ with isSyncing := false }

/-- States reachable from the initial client state (empty queue, no
flush running) by any interleaving of the callbacks. -/
inductive SQReach {α : Type} : SQState α → Prop
  | init : SQReach ⟨[], false, []⟩
  | step {σ σ' : SQState α} : SQReach σ → SQStep σ σ' → SQReach σ'

/-- States reachable when no flush request ever fails (all other events,
including flushes whose requests succeed, remain allowed). -/
inductive SQReachNoFlushFail {α : Type} : SQState α → Prop
  | init : SQReachNoFlushFail ⟨[], false, []⟩
  | pushFail {σ : SQState α} (k : String) (d : α) :
      SQReachNoFlushFail σ →
      SQReachNoFlushFail { σ with pendingSyncs := coalesceRetry σ.pendingSyncs k d }
  | flushStart {σ : SQState α} :
      SQReachNoFlushFail σ → σ.isSyncing = false → σ.pendingSyncs ≠ [] →
      SQReachNoFlushFail ⟨[], true, σ.pendingSyncs⟩
  | flushItemOk {σ : SQState α} (pre post : List (String × α)) (it : String × α) :
      SQReachNoFlushFail σ → σ.inflight = pre ++ it :: post →
      SQReachNoFlushFail { σ with inflight := pre ++ post }
  | flushDone {σ : SQState α} :
      SQReachNoFlushFail σ → σ.inflight = [] → σ.isSyncing = true →
      SQReachNoFlushFail { σ with isSyncing := false }

/-- The coalescing invariant of the spec: at most one pending entry per
collection key. -/
def atMostOnePerKey {α : Type} (ps : List (String × α)) : Prop :=
  ∀ k : String, ps.countP (fun p => p.1 == k) ≤ 1

/-! ## JSON-value-level model of `POST /api/sync`

The sync endpoint stores a request-supplied value under a
request-supplied key, so this route is modelled over untyped JSON
values.  Numbers are modelled as integers (the request bodies of this
app carry ids, progress values and strings). -/

/-- A JSON/JS value as seen by the handler after `JSON.parse`
(`undefined` covers `undefined` field accesses). -/
inductive JVal where
  | null
  | undefined
  | bool (b : Bool)
  | num (n : Int)
  | str (s : String)
  | arr (xs : List JVal)
  | obj (fields : List (String × JVal))
  deriving Repr

/-- JS truthiness: `null`, `undefined`, `false`, `0` and `""` are falsy;
every array or object is truthy. -/
def jvTruthy : JVal → Bool
  | .null => false
  | .undefined => false
  | .bool b => b
  | .num n => n != 0
  | .str s => s != ""
  | .arr _ => true
  | .obj _ => true

/-- JS `Array.isArray`. -/
def jvIsArray : JVal → Bool
  | .arr _ => true
  | _ => false

/-- Nullish values `null`/`undefined` (destructuring or property access on these
throws). -/
def jvNullish : JVal → Bool
  | .null => true
  | .undefined => true
  | _ => false

/-- Property read used by the destructuring `const {key, data} = body`:
fields of non-objects (other than `null`/`undefined`, excluded by the
caller) read as `undefined`. -/
def jvGetField (v : JVal) (f : String) : JVal :=
  match v with
  | .obj fields => ((fields.find? (fun p => p.1 == f)).map (fun p => p.2)).getD .undefined
  | _ => .undefined

mutual

/-- JS `ToString` of a value used as a property name in `dbData[key]`
(strings pass through, arrays join their elements with `","`, objects
print `[object Object]`). -/
def jvToPropName : JVal → String
  | .null => "null"
  | .undefined => "undefined"
  | .bool b => if b then "true" else "false"
  | .num n => toString n
  | .str s => s
  | .arr xs => jvArrToPropName xs
  | .obj _ => "[object Object]"

/-- Array `toString`: elements joined with `","`,
`null`/`undefined` elements printing as empty. -/
def jvArrToPropName : List JVal → String
  | [] => ""
  | [x] => jvElemToPropName x
  | x :: y :: xs => jvElemToPropName x ++ "," ++ jvArrToPropName (y :: xs)

/-- One array element inside `toString`. -/
def jvElemToPropName : JVal → String
  | .null => ""
  | .undefined => ""
  | v => jvToPropName v

end

/-- JS strict equality `===` restricted to the values of this model:
structural on primitives; on arrays and objects `===` is reference
equality, which a structural model cannot observe, so it is conservatively
`false` there (the source only ever compares ids and string literals). -/
def jvStrictEq : JVal → JVal → Bool
  | .null, .null => true
  | .undefined, .undefined => true
  | .bool a, .bool b => a == b
  | .num a, .num b => a == b
  | .str a, .str b => a == b
  | _, _ => false

/-- Decimal `parseInt(String(v))`: skip leading whitespace, optional
sign, then leading digits; `none` is `NaN` (so any `===` against a
number is false).  The hexadecimal `0x` prefix of JS `parseInt` is not
modelled; no store content of this app uses it. -/
def parseIntChars : List Char → Option Int
  | cs =>
    let cs := cs.dropWhile (fun c => c.isWhitespace)
    let (neg, cs) := match cs with
      | '-' :: rest => (true, rest)
      | '+' :: rest => (false, rest)
      | rest => (false, rest)
    let digits := cs.takeWhile (fun c => c.isDigit)
    if digits.isEmpty then none
    else
      let n : Nat := digits.foldl (fun acc c => acc * 10 + (c.toNat - '0'.toNat)) 0
      some (if neg then -(n : Int) else (n : Int))

/-- JS `parseInt` applied to a stored JSON value. -/
def jvParseInt (v : JVal) : Option Int :=
  parseIntChars (jvToPropName v).data

/-- The persisted document as the handler sees it: named top-level
fields holding JSON values. -/
abbrev JDoc := List (String × JVal)

/-- Property read on the document (`dbData.projects`), `undefined` when
absent. -/
def jGet (db : JDoc) (k : String) : JVal :=
  ((db.find? (fun p => p.1 == k)).map (fun p => p.2)).getD .undefined

/-- Property write on the document (`dbData[key] = data`). -/
def jSet : JDoc → String → JVal → JDoc
  | [], k, v => [(k, v)]
  | p :: ps, k, v => if p.1 == k then (k, v) :: ps else p :: jSet ps k v

/-- JS `v || []` as applied to the two collections read by the server
evaluator. -/
def jvOrEmptyArr (v : JVal) : JVal :=
  if jvTruthy v then v else .arr []

/-- Property read on a record inside a collection: throws (`.error`) on
`null`/`undefined`, reads `undefined` from other non-objects. -/
def jvGetFieldE (v : JVal) (f : String) : Except Unit JVal :=
  if jvNullish v then .error () else .ok (jvGetField v f)

/-- Property assignment `record.f = v`: on an object it updates the
field; on other non-nullish values JS silently discards the write
(non-strict mode). -/
def jvSetFieldQuiet (v : JVal) (f : String) (x : JVal) : JVal :=
  match v with
  | .obj fields => .obj (jSet fields f x)
  | other => other

/-- Effectful `filter` (each predicate call may throw, as the arrow
functions of the source do on `null` records). -/
def jvFilterE (f : JVal → Except Unit Bool) : List JVal → Except Unit (List JVal)
  | [] => .ok []
  | v :: vs => do
    let b ← f v
    let rest ← jvFilterE f vs
    if b then pure (v :: rest) else pure rest

/-- Effectful short-circuiting `every`. -/
def jvAllE (f : JVal → Except Unit Bool) : List JVal → Except Unit Bool
  | [] => .ok true
  | v :: vs => do
    let b ← f v
    if b then jvAllE f vs else pure false

/-- Source `isProjectCompleted(projectId, stages)` over raw JSON values;
`stagesV` is `dbData.stages || []`, and calling `.filter` on a truthy
non-array throws. -/
def isProjectCompletedJ (projectId : JVal) (stagesV : JVal) : Except Unit Bool :=
  match stagesV with
  | .arr ss => do
    let projectStages ← jvFilterE (fun s => do
      let sp ← jvGetFieldE s "projectId"
      pure (jvStrictEq sp projectId)) ss
    if projectStages.length = 0 then pure false
    else jvAllE (fun s => do
      let pr ← jvGetFieldE s "progress"
      pure (jvParseInt pr == some (100 : Int))) projectStages
  | _ => .error ()

/-- One `projects.forEach` iteration of the server evaluator over raw
JSON values. -/
def evalOneJ (now : String) (stagesV : JVal) (project : JVal) :
    Except Unit (JVal × Bool) := do
  let pid ← jvGetFieldE project "id"
  let completed ← isProjectCompletedJ pid stagesV
  let cd ← jvGetFieldE project "completionDate"
  if completed && !(jvTruthy cd) then
    pure (jvSetFieldQuiet project "completionDate" (.str now), true)
  else if !completed && jvTruthy cd then
    pure (jvSetFieldQuiet project "completionDate" .null, true)
  else
    pure (project, false)

/-- The `forEach` loop over the projects array. -/
def evalProjectsJ (now : String) (stagesV : JVal) :
    List JVal → Except Unit (List JVal × Bool)
  | [] => .ok ([], false)
  | p :: ps => do
    let r ← evalOneJ now stagesV p
    let rest ← evalProjectsJ now stagesV ps
    pure (r.1 :: rest.1, r.2 || rest.2)

/-- Source `evaluateProjectCompletionStatus(dbData)` over a raw document:
`projects`/`stages` default to `[]` when falsy, iterating a truthy
non-array `projects` throws, and the (in-place) project updates are
written back under `"projects"` exactly when `updated`. -/
def evaluateProjectCompletionStatusJ (now : String) (db : JDoc) :
    Except Unit (JDoc × Bool) := do
  let projectsV := jvOrEmptyArr (jGet db "projects")
  let stagesV := jvOrEmptyArr (jGet db "stages")
  match projectsV with
  | .arr ps => do
    let r ← evalProjectsJ now stagesV ps
    if r.2 then pure (jSet db "projects" (.arr r.1), true)
    else pure (db, false)
  | _ => .error ()

/-- Interactions of a request with the Durable Store, in order. -/
inductive StoreOp where
  | read
  | write
  deriving DecidableEq, Repr

/-- Result of one `POST /api/sync` request: HTTP status, the store as
left on disk, and the store operations performed. -/
structure SyncOut where
  status : Nat
  store : Option JDoc
  ops : List StoreOp
  deriving Repr

/-- The `POST /api/sync` handler.  `body` is the result of
`JSON.parse` (`none` = the parse threw, handled as 500); destructuring
`null`/`undefined` throws (500); then the validation
`!key || !Array.isArray(data)` answers 400 **before** the store is read;
otherwise the store is read (`none` store = failed read, 500), the
collection is replaced, the evaluator runs when `key === 'stages'` (a
throw inside it is caught as 500 with nothing persisted), and the result
is persisted via `writeDB` (`writeOk` is the I/O oracle; a failed write
is caught as 500 with the file unchanged, writes being modelled as
atomic). -/
def syncPost (now : String) (body : Option JVal) (writeOk : Bool)
    (store : Option JDoc) : SyncOut :=
  match body with
  | none => ⟨500, store, []⟩
  | some b =>
    if jvNullish b then ⟨500, store, []⟩
    else
      let key := jvGetField b "key"
      let data := jvGetField b "data"
      if !(jvTruthy key) || !(jvIsArray data) then ⟨400, store, []⟩
      else
        match store with
        | none => ⟨500, none, [.read]⟩
        | some db =>
          let db1 := jSet db (jvToPropName key) data
          match (if jvStrictEq key (.str "stages")
                 then evaluateProjectCompletionStatusJ now db1
                 else .ok (db1, false)) with
          | .error _ => ⟨500, some db, [.read]⟩
          | .ok r =>
            if writeOk then ⟨200, some r.1, [.read, .write]⟩
            else ⟨500, some db, [.read, .write]⟩

/-! ## Derived-state passes as document transformers (for comparing the
client and server evaluation passes) -/

/-- The server-side derived-state pass run on sync of stages and before
project queries: only `evaluateProjectCompletionStatus`; stages and
notifications are not touched. -/
def serverSyncDerivedPass (now : String) (db : Doc) : Doc :=
  { db with projects := (evaluateProjectCompletionStatus now db.stages db.projects).1 }

/-- The client-side derived-state pass (`updateAllStageStatuses`):
stage statuses, behind-schedule notifications and project completion. -/
def clientDerivedPass (today : String) (nowMs : Nat) (nowIso : String) (db : Doc) : Doc :=
  let r := updateAllStageStatuses today nowMs nowIso db.users db.projects db.stages
    db.notifications
  { db with stages := r.1, notifications := r.2.1, projects := r.2.2.1 }

/-- A project stripped of its derived `completionDate` field (frame
comparison helper). -/
def projShell (p : Project) : Project :=
  { p with completionDate := none }

/-- The non-`projects` collections of a document together with the
project records modulo `completionDate` (what the query handlers must
leave unchanged). -/
def docFrame (db : Doc) :
    List User × List Stage × List Notification × List DelayRecord ×
      List LessonLearned × List ProjectReport × List Project :=
  (db.users, db.stages, db.notifications, db.delayRecords, db.lessonsLearned,
    db.projectReports, db.projects.map projShell)

/-! ## Concrete inputs used by counterexamples and witnesses -/

/-- A reachable store state the C1 claim fails on: a project whose stored
`completionDate` is the empty string (syncable through
`POST /api/sync {key:"projects", ...}`; falsy in JS but not `null`). -/
def projEmptyCd : Project :=
  { id := "p1", name := "Phoenix", description := "", createdAt := "2026-01-01",
    completionDate := some "" }

/-- A completed stage, used to witness C1 and C3. -/
def stageDoneW : Stage :=
  { id := "s1", projectId := "p1", name := "Closure", plannedStart := "2026-01-01",
    plannedEnd := "2026-02-01", actualStart := "2026-01-01", actualEnd := "2026-02-01",
    progress := 100, status := "Completed" }

/-- The C1/C3 witness project before evaluation. -/
def projPendingW : Project :=
  { id := "p1", name := "Phoenix", description := "", createdAt := "2026-01-01",
    completionDate := none }

/-- The C1 witness project as the evaluator leaves it. -/
def projDoneW : Project :=
  { projPendingW with completionDate := some "2026-10-11T00:00:00.000Z" }

/-- An overdue, incomplete stage whose stored status is still
`On Track` (C6 counterexample). -/
def stageLateC6 : Stage :=
  { id := "s1", projectId := "p1", name := "Implementation",
    plannedStart := "2019-12-01", plannedEnd := "2020-01-01", actualStart := "",
    actualEnd := "", progress := 0, status := "On Track" }

/-- An Admin user (C6 counterexample / C7 witness). -/
def adminW : User :=
  { id := "u1", username := "admin", email := "admin@gridco.example", role := "Admin" }

/-- A Viewer user (C7 witness). -/
def viewerW : User :=
  { id := "u2", username := "viewer", email := "viewer@gridco.example", role := "Viewer" }

/-- The C6 counterexample document. -/
def docC6 : Doc :=
  { users := [adminW], projects := [projPendingW], stages := [stageLateC6],
    notifications := [], delayRecords := [], lessonsLearned := [], projectReports := [] }

/-- A date parser under which `"garbage"` does not parse (C8). -/
def parseNoneW : String → Option (Int × Int) := fun _ => none

/-- A project whose stored completion timestamp is unparseable (C8). -/
def projGarbage : Project :=
  { id := "p1", name := "Grid", description := "", createdAt := "2026-01-01",
    completionDate := some "garbage" }

/-- The C8 counterexample document: the garbage-dated project is fully
completed stage-wise. -/
def docGarbage : Doc :=
  { users := [], projects := [projGarbage], stages := [stageDoneW],
    notifications := [], delayRecords := [], lessonsLearned := [], projectReports := [] }

/-- The malformed `POST /api/sync` body of C4:
`{key: "stages", data: "not-an-array"}`. -/
def syncBadBody : JVal :=
  .obj [("key", .str "stages"), ("data", .str "not-an-array")]

/-- The concrete store the C4 witness starts from. -/
def syncStoreW : JDoc :=
  [("stages", .arr []), ("projects", .arr [])]

/-- The sync-queue state with two pending entries for key `stages`
reached in the C5 counterexample. -/
def sqBad : SQState Nat :=
  ⟨[("stages", 2), ("stages", 1)], true, []⟩

/-! ## Helper lemmas -/

theorem evalStep_id (now : String) (stages : List Stage) (p : Project) :
    ((evalStep now stages p).1).id = p.id := by
  cases c : isProjectCompleted p.id stages <;>
    cases t : jsTruthyStr p.completionDate <;>
      simp [evalStep, c, t]

theorem evalPCS_fst (now : String) (stages : List Stage) (projects : List Project) :
    (evaluateProjectCompletionStatus now stages projects).1
      = projects.map (fun p => (evalStep now stages p).1) := by
  induction projects with
  | nil => rfl
  | cons p ps ih => simp [evaluateProjectCompletionStatus, ih]

theorem evalStep_truthy (now : String) (h : now ≠ "") (stages : List Stage)
    (p : Project) :
    jsTruthyStr ((evalStep now stages p).1).completionDate
      = isProjectCompleted p.id stages := by
  cases c : isProjectCompleted p.id stages <;>
    cases t : jsTruthyStr p.completionDate
  · simp [evalStep, c, t]
  · have hinner : evalStep now stages p = ({ p with completionDate := none }, true) := by
      simp [evalStep, c, t]
    rw [hinner]
    simp [jsTruthyStr]
  · have hinner : evalStep now stages p = ({ p with completionDate := some now }, true) := by
      simp [evalStep, c, t]
    rw [hinner]
    simp [jsTruthyStr, h]
  · simp [evalStep, c, t]

theorem isProjectCompleted_iff (pid : String) (stages : List Stage) :
    isProjectCompleted pid stages = true ↔
      (stages.filter (fun s => s.projectId == pid) ≠ [] ∧
        ∀ s ∈ stages.filter (fun s => s.projectId == pid), s.progress = 100) := by
  unfold isProjectCompleted
  cases h : stages.filter (fun s => s.projectId == pid) with
  | nil => simp [h]
  | cons s ss => simp [h, List.all_eq_true]

theorem isProjectCompleted_false_of_incomplete (pid : String) (stages : List Stage)
    (s : Stage) (hmem : s ∈ stages.filter (fun s => s.projectId == pid))
    (hbad : s.progress ≠ 100) :
    isProjectCompleted pid stages = false := by
  rcases h : isProjectCompleted pid stages with _ | _
  · rfl
  · rcases (isProjectCompleted_iff pid stages).1 h with ⟨_, hall⟩
    exact absurd (hall s hmem) hbad

theorem clientCompletedCheck_eq (p : Project) (stages : List Stage) :
    clientCompletedCheck p stages = isProjectCompleted p.id stages := by
  unfold clientCompletedCheck isProjectCompleted
  cases h : stages.filter (fun s => s.projectId == p.id) with
  | nil => simp [h]
  | cons s ss => simp [h]

theorem evalStepClient_eq (now : String) (stages : List Stage) (p : Project) :
    evalStepClient now stages p = evalStep now stages p := by
  unfold evalStepClient evalStep
  rw [clientCompletedCheck_eq]

theorem evalClient_eq_server (now : String) (stages : List Stage)
    (projects : List Project) :
    evaluateProjectCompletionClient now stages projects
      = evaluateProjectCompletionStatus now stages projects := by
  induction projects with
  | nil => rfl
  | cons p ps ih =>
    simp [evaluateProjectCompletionClient, evaluateProjectCompletionStatus, ih,
      evalStepClient_eq]

theorem evalStep_idem (now1 now2 : String) (h : now1 ≠ "") (stages : List Stage)
    (p : Project) :
    evalStep now2 stages (evalStep now1 stages p).1 = ((evalStep now1 stages p).1, false) := by
  cases c : isProjectCompleted p.id stages <;>
    cases t : jsTruthyStr p.completionDate
  · have hinner : evalStep now1 stages p = (p, false) := by simp [evalStep, c, t]
    rw [hinner]
    simp [evalStep, c, t]
  · have hinner : evalStep now1 stages p = ({ p with completionDate := none }, true) := by
      simp [evalStep, c, t]
    rw [hinner]
    simp [evalStep, c, jsTruthyStr]
  · have hinner : evalStep now1 stages p = ({ p with completionDate := some now1 }, true) := by
      simp [evalStep, c, t]
    rw [hinner]
    simp [evalStep, c, jsTruthyStr, h]
  · have hinner : evalStep now1 stages p = (p, false) := by simp [evalStep, c, t]
    rw [hinner]
    simp [evalStep, c, t]

theorem evalStep_clears (now2 : String) (stages2 : List Stage) (q : Project)
    (hc : isProjectCompleted q.id stages2 = false)
    (ht : jsTruthyStr q.completionDate = true) :
    ((evalStep now2 stages2 q).1).completionDate = none := by
  simp [evalStep, hc, ht]

theorem updateStagesLoop_fst (today : String) (nowMs : Nat) (nowIso : String)
    (users : List User) (projects : List Project) (stages : List Stage)
    (notifications : List Notification) :
    (updateStagesLoop today nowMs nowIso users projects stages notifications).1
      = stages.map (fun st =>
          { st with status := computeStageStatus st.progress st.plannedEnd today }) := by
  induction stages generalizing notifications with
  | nil => rfl
  | cons st rest ih =>
    by_cases hs : st.status = computeStageStatus st.progress st.plannedEnd today
    · have hb : (st.status == computeStageStatus st.progress st.plannedEnd today) = true := by
        simp [hs]
      have hst : ({ st with status := computeStageStatus st.progress st.plannedEnd today } : Stage)
          = st := by
        cases st
        simp_all
      simp [updateStagesLoop, hb, hst, ih]
    · have hb : (st.status == computeStageStatus st.progress st.plannedEnd today) = false := by
        simp [hs]
      simp [updateStagesLoop, hb, ih]

/-! ## Claim theorems -/

/-- C2.  For every stage the computed status is the pure function
`computeStageStatus` of `(progress, plannedEnd, today)`: `progress = 100`
gives `Completed` whatever the planned end; otherwise `today` after
`plannedEnd` (lexicographic string comparison) gives `Behind Schedule`;
otherwise `On Track`.  The status-update loop assigns exactly this
function to each stage, and `handleSaveStage`'s inline formula is the
same function. -/
theorem claim2_stage_status_pure :
    (∀ (p : Int) (e t : String), p = 100 → computeStageStatus p e t = "Completed")
  ∧ (∀ (p : Int) (e t : String), p ≠ 100 → jsStrLt e t = true →
      computeStageStatus p e t = "Behind Schedule")
  ∧ (∀ (p : Int) (e t : String), p ≠ 100 → jsStrLt e t = false →
      computeStageStatus p e t = "On Track")
  ∧ (∀ (today : String) (nowMs : Nat) (nowIso : String) (users : List User)
      (projects : List Project) (stages : List Stage) (notifications : List Notification),
      (updateAllStageStatuses today nowMs nowIso users projects stages notifications).1
        = stages.map (fun st =>
            { st with status := computeStageStatus st.progress st.plannedEnd today }))
  ∧ (∀ (p : Int) (e t : String), handleSaveStageStatus p e t = computeStageStatus p e t) := by
  refine ⟨?_, ?_, ?_, ?_, ?_⟩
  · intro p e t hp
    simp [computeStageStatus, hp]
  · intro p e t hp he
    simp [computeStageStatus, hp, he]
  · intro p e t hp he
    simp [computeStageStatus, hp, he]
  · intro today nowMs nowIso users projects stages notifications
    exact updateStagesLoop_fst today nowMs nowIso users projects stages notifications
  · intro p e t
    rfl

/-- Witness for C2 at concrete inputs. -/
theorem claim2_witness :
    ((100 : Int) = 100 ∧ computeStageStatus 100 "2020-01-01" "2026-10-11" = "Completed")
  ∧ ((50 : Int) ≠ 100 ∧ jsStrLt "2020-01-01" "2026-10-11" = true ∧
      computeStageStatus 50 "2020-01-01" "2026-10-11" = "Behind Schedule")
  ∧ ((50 : Int) ≠ 100 ∧ jsStrLt "2027-01-01" "2026-10-11" = false ∧
      computeStageStatus 50 "2027-01-01" "2026-10-11" = "On Track") :=
  ⟨⟨rfl, claim2_stage_status_pure.1 100 _ _ rfl⟩,
   ⟨by decide, by decide,
    claim2_stage_status_pure.2.1 50 "2020-01-01" "2026-10-11" (by decide) (by decide)⟩,
   ⟨by decide, by decide,
    claim2_stage_status_pure.2.2.1 50 "2027-01-01" "2026-10-11" (by decide) (by decide)⟩⟩

/-- C1, counterexample.  On a project with zero stages and
`completionDate = ""` the evaluator changes nothing (the field is falsy,
so the clearing branch is not taken), leaving a non-null
`completionDate` on a project that has no stage at all — the claimed
equivalence `completionDate != null ⇔ (≥ 1 stage ∧ all progress = 100)`
is violated. -/
theorem claim1_counterexample :
    (evaluateProjectCompletionStatus "2026-10-11T00:00:00.000Z" [] [projEmptyCd]).1
      = [projEmptyCd]
  ∧ projEmptyCd.completionDate ≠ none
  ∧ List.filter (fun s => s.projectId == projEmptyCd.id) ([] : List Stage) = [] := by
  refine ⟨by decide, by decide, rfl⟩

/-- C1, amended: with "non-null" strengthened to "truthy (non-null and
non-empty)", the invariant holds.  After the evaluator runs (with a
non-empty timestamp, as `toISOString` always is), a project's
`completionDate` is truthy iff the project has at least one stage and
all its stages have progress 100; in particular a project whose stage
set is empty has a falsy `completionDate`, and re-running the evaluator
after any of a completed project's stages drops below 100 resets
`completionDate` to `null`. -/
theorem claim1_amended :
    ∀ (now : String) (stages : List Stage) (projects : List Project),
      now ≠ "" →
      ∀ p' ∈ (evaluateProjectCompletionStatus now stages projects).1,
        (jsTruthyStr p'.completionDate = true ↔
          (stages.filter (fun s => s.projectId == p'.id) ≠ [] ∧
            ∀ s ∈ stages.filter (fun s => s.projectId == p'.id), s.progress = 100))
      ∧ (stages.filter (fun s => s.projectId == p'.id) = [] →
          jsTruthyStr p'.completionDate = false)
      ∧ (∀ (now2 : String) (stages2 : List Stage) (s : Stage),
          jsTruthyStr p'.completionDate = true →
          s ∈ stages2.filter (fun s => s.projectId == p'.id) →
          s.progress ≠ 100 →
          ((evalStep now2 stages2 p').1).completionDate = none) := by
  intro now stages projects h p' hp'
  rw [evalPCS_fst] at hp'
  rcases List.mem_map.1 hp' with ⟨p, _, rfl⟩
  have hid := evalStep_id now stages p
  have htr := evalStep_truthy now h stages p
  have htr' : jsTruthyStr ((evalStep now stages p).1).completionDate
      = isProjectCompleted ((evalStep now stages p).1).id stages := by
    rw [htr, hid]
  refine ⟨?_, ?_, ?_⟩
  · rw [htr']
    exact isProjectCompleted_iff _ stages
  · intro hempty
    rw [htr']
    rcases hc : isProjectCompleted ((evalStep now stages p).1).id stages with _ | _
    · rfl
    · rcases (isProjectCompleted_iff _ stages).1 hc with ⟨hne, _⟩
      exact absurd hempty hne
  · intro now2 stages2 s htruthy hsmem hbad
    have hc2 : isProjectCompleted ((evalStep now stages p).1).id stages2 = false :=
      isProjectCompleted_false_of_incomplete _ stages2 s hsmem hbad
    exact evalStep_clears now2 stages2 _ hc2 htruthy

/-- Witness for C1 (amended) at a concrete store. -/
theorem claim1_witness :
    ("2026-10-11T00:00:00.000Z" : String) ≠ ""
  ∧ (jsTruthyStr projDoneW.completionDate = true ↔
      ([stageDoneW].filter (fun s => s.projectId == projDoneW.id) ≠ [] ∧
        ∀ s ∈ [stageDoneW].filter (fun s => s.projectId == projDoneW.id),
          s.progress = 100)) :=
  ⟨by decide,
   (claim1_amended "2026-10-11T00:00:00.000Z" [stageDoneW] [projPendingW]
      (by decide) projDoneW (by decide)).1⟩

/-- C3.  The Derived-State Evaluator is idempotent: an immediate second
run changes no project and reports `updated = false`; in particular a
`completionDate` stamped by the first run keeps the first run's
timestamp (the first run's `now` is a `toISOString` value, hence
non-empty).  The client-side evaluator, being the same function
(see C6), shares the property. -/
theorem claim3_idempotent :
    ∀ (now1 now2 : String) (stages : List Stage) (projects : List Project),
      now1 ≠ "" →
      evaluateProjectCompletionStatus now2 stages
          (evaluateProjectCompletionStatus now1 stages projects).1
        = ((evaluateProjectCompletionStatus now1 stages projects).1, false) := by
  intro now1 now2 stages projects h
  induction projects with
  | nil => rfl
  | cons p ps ih =>
    simp only [evaluateProjectCompletionStatus] at ih ⊢
    rw [evalStep_idem now1 now2 h stages p, ih]
    rfl

/-- Witness for C3 at a concrete store. -/
theorem claim3_witness :
    ("2026-10-11T00:00:00.000Z" : String) ≠ ""
  ∧ evaluateProjectCompletionStatus "2026-10-12T09:00:00.000Z" [stageDoneW]
      (evaluateProjectCompletionStatus "2026-10-11T00:00:00.000Z" [stageDoneW]
        [projPendingW]).1
    = ((evaluateProjectCompletionStatus "2026-10-11T00:00:00.000Z" [stageDoneW]
        [projPendingW]).1, false) :=
  ⟨by decide,
   claim3_idempotent "2026-10-11T00:00:00.000Z" "2026-10-12T09:00:00.000Z"
     [stageDoneW] [projPendingW] (by decide)⟩

/-- C6, counterexample.  The server pass and the client pass do not
compute the same derived state: on a document holding an overdue,
incomplete stage stored as `On Track`, the client pass moves the stage
to `Behind Schedule` and creates a notification, while the server pass
(which only evaluates project completion) leaves both untouched. -/
theorem claim6_counterexample :
    (clientDerivedPass "2026-10-11" 1700000000000 "2026-10-11T00:00:00.000Z" docC6).stages
      ≠ (serverSyncDerivedPass "2026-10-11T00:00:00.000Z" docC6).stages
  ∧ (clientDerivedPass "2026-10-11" 1700000000000 "2026-10-11T00:00:00.000Z" docC6).notifications
      ≠ (serverSyncDerivedPass "2026-10-11T00:00:00.000Z" docC6).notifications := by
  refine ⟨by decide, by decide⟩

/-- C6, amended.  The *project-completion* evaluation is identical on
both sides: the client's `evaluateProjectCompletion` and the server's
`evaluateProjectCompletionStatus` are extensionally equal (same updated
projects and same `updated` flag on every input).  Stage statuses and
behind-schedule notifications, however, are recomputed only by the
client pass: the server pass leaves both collections untouched. -/
theorem claim6_amended :
    (∀ (now : String) (stages : List Stage) (projects : List Project),
      evaluateProjectCompletionClient now stages projects
        = evaluateProjectCompletionStatus now stages projects)
  ∧ (∀ (now : String) (db : Doc),
      (serverSyncDerivedPass now db).stages = db.stages ∧
        (serverSyncDerivedPass now db).notifications = db.notifications) :=
  ⟨evalClient_eq_server, fun _ _ => ⟨rfl, rfl⟩⟩

end PME

namespace PME

theorem charsHasInfix_append_right (n ys : List Char) :
    ∀ xs : List Char, charsHasInfix n ys = true → charsHasInfix n (xs ++ ys) = true := by
  intro xs h
  induction xs with
  | nil => simpa using h
  | cons x xs ih => simp [charsHasInfix, ih]

theorem strIncludes_behindMessage (a b : String) :
    strIncludes (behindMessage a b) "behind schedule" = true := by
  unfold strIncludes behindMessage
  have hdata : ("Stage \"" ++ a ++ "\" in project \"" ++ b ++ "\" is behind schedule.").data
      = ("Stage \"" ++ a ++ "\" in project \"" ++ b).data
        ++ ("\" is behind schedule." : String).data := by
    simp [String.data_append]
  rw [hdata]
  exact charsHasInfix_append_right _ _ _ (by decide)

/-- C7.  On a transition into `Behind Schedule`,
`createBehindScheduleNotification` appends exactly one notification per
Admin or Project-Manager user (in user order, each carrying the stage id
and a message containing `"behind schedule"`), keeping the existing
notifications; when a behind-schedule notification for that stage
already exists, it creates nothing; and the status-update loop invokes
it exactly for the stages that transition into `Behind Schedule`. -/
theorem claim7_behind_notifications :
    (∀ (nowMs : Nat) (nowIso : String) (users : List User) (projects : List Project)
        (stage : Stage) (notifications : List Notification),
      notifications.any (fun n => n.stageId == stage.id &&
          strIncludes n.message "behind schedule") = false →
        ((createBehindScheduleNotification nowMs nowIso users projects stage
            notifications).take notifications.length = notifications
        ∧ ((createBehindScheduleNotification nowMs nowIso users projects stage
            notifications).drop notifications.length).map (fun n => n.userId)
            = (users.filter isAdminOrPM).map (fun u => u.id)
        ∧ ∀ n ∈ (createBehindScheduleNotification nowMs nowIso users projects stage
            notifications).drop notifications.length,
            n.stageId = stage.id ∧ strIncludes n.message "behind schedule" = true))
  ∧ (∀ (nowMs : Nat) (nowIso : String) (users : List User) (projects : List Project)
        (stage : Stage) (notifications : List Notification),
      notifications.any (fun n => n.stageId == stage.id &&
          strIncludes n.message "behind schedule") = true →
        createBehindScheduleNotification nowMs nowIso users projects stage notifications
          = notifications)
  ∧ (∀ (today : String) (nowMs : Nat) (nowIso : String) (users : List User)
        (projects : List Project) (stages : List Stage)
        (notifications : List Notification),
      (updateStagesLoop today nowMs nowIso users projects stages notifications).2.1
        = (stages.filter (transitionsToBehind today)).foldl
            (fun ns st => createBehindScheduleNotification nowMs nowIso users projects
              { st with status := "Behind Schedule" } ns) notifications) := by
  refine ⟨?_, ?_, ?_⟩
  · intro nowMs nowIso users projects stage notifications h
    rw [createBehindScheduleNotification, if_neg (by simp [h])]
    refine ⟨List.take_left _ _, ?_, ?_⟩
    · rw [List.drop_left, List.map_map]
      rfl
    · intro n hn
      rw [List.drop_left] at hn
      rcases List.mem_map.1 hn with ⟨u, _, rfl⟩
      exact ⟨rfl, strIncludes_behindMessage _ _⟩
  · intro nowMs nowIso users projects stage notifications h
    rw [createBehindScheduleNotification, if_pos (by simp [h])]
  · intro today nowMs nowIso users projects stages notifications
    induction stages generalizing notifications with
    | nil => rfl
    | cons st rest ih =>
      by_cases hs : st.status = computeStageStatus st.progress st.plannedEnd today
      · have hb : (st.status == computeStageStatus st.progress st.plannedEnd today) = true := by
          simp [hs]
        have ht : transitionsToBehind today st = false := by
          simp [transitionsToBehind, hb]
        simp [updateStagesLoop, hb, ht, ih, List.filter]
      · have hb : (st.status == computeStageStatus st.progress st.plannedEnd today) = false := by
          simp [hs]
        by_cases hbe : computeStageStatus st.progress st.plannedEnd today = "Behind Schedule"
        · rw [hbe] at hs hb
          have ht : transitionsToBehind today st = true := by
            simp [transitionsToBehind, hb, hbe]
          simp [updateStagesLoop, hb, List.filter_cons, ht, hbe, ih, hs]
        · have hbe' : (computeStageStatus st.progress st.plannedEnd today
              == "Behind Schedule") = false := by simp [hbe]
          have ht : transitionsToBehind today st = false := by
            simp [transitionsToBehind, hbe']
          simp [updateStagesLoop, hb, hbe', ht, ih, List.filter]

/-- Witness for C7 at a concrete transition (one Admin, one Viewer, no
existing notification). -/
theorem claim7_witness :
    (([] : List Notification).any (fun n => n.stageId == stageLateC6.id &&
        strIncludes n.message "behind schedule") = false)
  ∧ ((createBehindScheduleNotification 1700000000000 "2026-10-11T00:00:00.000Z"
        [adminW, viewerW] [projPendingW] stageLateC6 []).drop 0).map (fun n => n.userId)
      = ([adminW, viewerW].filter isAdminOrPM).map (fun u => u.id) :=
  ⟨rfl,
   (claim7_behind_notifications.1 1700000000000 "2026-10-11T00:00:00.000Z"
      [adminW, viewerW] [projPendingW] stageLateC6 [] rfl).2.1⟩

/-- C4.  A `POST /api/sync` whose parsed body has a non-array `data`
field is answered 400, the persisted store is exactly the input store,
and no store operation (read or write) happens before the rejection. -/
theorem claim4_sync_reject :
    ∀ (now : String) (b : JVal) (writeOk : Bool) (store : Option JDoc),
      jvNullish b = false →
      jvIsArray (jvGetField b "data") = false →
      syncPost now (some b) writeOk store = ⟨400, store, []⟩ := by
  intro now b writeOk store h1 h2
  simp [syncPost, h1, h2]

/-- Witness for C4 on the spec's own example body
`{key:"stages", data:"not-an-array"}`. -/
theorem claim4_witness :
    jvNullish syncBadBody = false
  ∧ jvIsArray (jvGetField syncBadBody "data") = false
  ∧ syncPost "2026-10-11T00:00:00.000Z" (some syncBadBody) true (some syncStoreW)
      = ⟨400, some syncStoreW, []⟩ :=
  ⟨rfl, rfl, claim4_sync_reject "2026-10-11T00:00:00.000Z" syncBadBody true (some syncStoreW) rfl rfl⟩

theorem runWriteQueue_log {α : Type} (jobs : List (α × Bool)) :
    ∀ file : Option α, (runWriteQueue file jobs).1 = jobs.map Prod.fst := by
  induction jobs with
  | nil => intro file; rfl
  | cons j rest ih =>
    intro file
    obtain ⟨d, ok⟩ := j
    simp [runWriteQueue, ih]

theorem runWriteQueue_outcomes {α : Type} (jobs : List (α × Bool)) :
    ∀ file : Option α, (runWriteQueue file jobs).2.1 = jobs.map Prod.snd := by
  induction jobs with
  | nil => intro file; rfl
  | cons j rest ih =>
    intro file
    obtain ⟨d, ok⟩ := j
    simp [runWriteQueue, ih]

theorem runWriteQueue_file {α : Type} (jobs : List (α × Bool)) :
    ∀ file : Option α, (runWriteQueue file jobs).2.2 = lastSuccessfulWrite file jobs := by
  induction jobs with
  | nil => intro file; rfl
  | cons j rest ih =>
    intro file
    obtain ⟨d, ok⟩ := j
    simp [runWriteQueue, lastSuccessfulWrite, ih]

/-- C9.  The write queue attempts the enqueued payloads exactly in
enqueue order (all of them: a failure never blocks the later entries),
each mutation's promise outcome is exactly its own write's outcome, and
the final file content is the last successfully written whole document. -/
theorem claim9_write_serializer :
    ∀ (α : Type) (file : Option α) (jobs : List (α × Bool)),
      (runWriteQueue file jobs).1 = jobs.map Prod.fst
    ∧ (runWriteQueue file jobs).2.1 = jobs.map Prod.snd
    ∧ (runWriteQueue file jobs).2.2 = lastSuccessfulWrite file jobs :=
  fun _ file jobs =>
    ⟨runWriteQueue_log jobs file, runWriteQueue_outcomes jobs file,
      runWriteQueue_file jobs file⟩

/-- C5, counterexample.  A reachable interleaving leaves two pending
entries for key `"stages"`: a failed push queues `("stages", 1)`, a
flush takes it in flight, a second failed push queues `("stages", 2)`,
and the in-flight request then fails and is re-appended without
coalescing. -/
theorem claim5_counterexample :
    SQReach sqBad
  ∧ sqBad.pendingSyncs.countP (fun p => p.1 == "stages") = 2
  ∧ ¬ atMostOnePerKey sqBad.pendingSyncs := by
  refine ⟨?_, by decide, ?_⟩
  · have s0 : SQReach (⟨[], false, []⟩ : SQState Nat) := SQReach.init
    have s1 : SQReach (⟨[("stages", 1)], false, []⟩ : SQState Nat) :=
      s0.step (SQStep.pushFail _ "stages" 1)
    have s2 : SQReach (⟨[], true, [("stages", 1)]⟩ : SQState Nat) :=
      s1.step (SQStep.flushStart _ rfl (List.cons_ne_nil _ _))
    have s3 : SQReach (⟨[("stages", 2)], true, [("stages", 1)]⟩ : SQState Nat) :=
      s2.step (SQStep.pushFail _ "stages" 2)
    exact s3.step (SQStep.flushItemFail _ [] [] ("stages", 1) rfl)
  · intro h
    have h2 : sqBad.pendingSyncs.countP (fun p => p.1 == "stages") = 2 := by decide
    have := h "stages"
    omega

theorem countP_coalesceRetry {α : Type} (k : String) (d : α) (k' : String) :
    ∀ ps : List (String × α),
      (coalesceRetry ps k d).countP (fun p => p.1 == k')
        = if k' = k then max (ps.countP (fun p => p.1 == k')) 1
          else ps.countP (fun p => p.1 == k') := by
  intro ps
  induction ps with
  | nil =>
    by_cases h : k' = k
    · subst h
      simp [coalesceRetry, List.countP_cons]
    · have hbe : (k == k') = false := beq_eq_false_iff_ne.mpr (fun he => h he.symm)
      simp [coalesceRetry, List.countP_cons, hbe, h]
  | cons p ps ih =>
    simp only [coalesceRetry]
    by_cases hp : (p.1 == k) = true
    · rw [if_pos hp]
      have hpk : p.1 = k := by simpa using hp
      by_cases h : k' = k
      · subst h
        simp [List.countP_cons, hpk]
      · have h1 : (k == k') = false := beq_eq_false_iff_ne.mpr (fun he => h he.symm)
        have h2 : (p.1 == k') = false := by rw [hpk]; exact h1
        simp [List.countP_cons, h1, h2, h]
    · rw [if_neg hp]
      have hb : (p.1 == k) = false := by simpa using hp
      by_cases h : k' = k
      · subst h
        simp [List.countP_cons, ih, hb]
      · simp [List.countP_cons, ih, h]

/-- C5, amended.  The coalescing invariant — at most one pending entry
per collection key — holds along every interleaving in which no flush
request fails: the `.catch` of `syncToBackend` replaces the payload of
an existing entry for the key instead of appending.  (A failed flush
request, by contrast, re-appends its item without coalescing, which is
what the counterexample exploits.) -/
theorem claim5_amended :
    ∀ {α : Type} (σ : SQState α), SQReachNoFlushFail σ → atMostOnePerKey σ.pendingSyncs := by
  intro α σ h
  induction h with
  | init => intro k; simp
  | pushFail k d _ ih =>
    intro k'
    dsimp only
    rw [countP_coalesceRetry]
    by_cases hk : k' = k
    · rw [if_pos hk]
      have := ih k'
      omega
    · rw [if_neg hk]
      exact ih k'
  | flushStart _ _ _ => intro k; simp
  | flushItemOk _ _ _ _ _ ih => exact ih
  | flushDone _ _ _ ih => exact ih

/-- Witness for C5 (amended) on a concrete no-flush-failure trace. -/
theorem claim5_witness :
    atMostOnePerKey ([("stages", (1 : Nat))] : List (String × Nat)) :=
  claim5_amended _ (SQReachNoFlushFail.pushFail "stages" 1 SQReachNoFlushFail.init)

/-- C8, counterexample.  With no month/year filter supplied, a completed
project whose stored completion timestamp does not parse as a date is
**included** in the completed results — the handler never parses the
timestamp on that path, so the claimed unconditional exclusion fails. -/
theorem claim8_counterexample :
    parseNoneW (projGarbage.completionDate.getD "") = none
  ∧ ((completedHandler parseNoneW "2026-10-11T00:00:00.000Z" none none
        (some docGarbage)).response).map (fun r => r.2.map (fun e => e.base))
      = some [projGarbage] :=
  ⟨rfl, by decide⟩

/-- C8, amended.  Month/year filtering is an inclusive AND when both
parameters are given, and a record with an unparseable completion
timestamp is excluded whenever **at least one** of month/year is
supplied; when neither is supplied the date is never parsed and no such
exclusion happens (the handler returns the base completed set).  The
endpoint's response consists exactly of the so-filtered projects (after
re-evaluation), enriched. -/
theorem claim8_amended :
    (∀ (parse : String → Option (Int × Int)) (m y : Int)
        (projects : List Project) (stages : List Stage) (p : Project),
      p ∈ completedFiltered parse (some m) (some y) projects stages ↔
        (p ∈ completedBase projects stages ∧
          ∃ md : Int × Int, parse (p.completionDate.getD "") = some md ∧
            md.1 + 1 = m ∧ md.2 = y))
  ∧ (∀ (parse : String → Option (Int × Int)) (fm fy : Option Int)
        (projects : List Project) (stages : List Stage) (p : Project),
      (fm.isSome || fy.isSome) = true →
      parse (p.completionDate.getD "") = none →
      p ∉ completedFiltered parse fm fy projects stages)
  ∧ (∀ (parse : String → Option (Int × Int))
        (projects : List Project) (stages : List Stage),
      completedFiltered parse none none projects stages
        = completedBase projects stages)
  ∧ (∀ (parse : String → Option (Int × Int)) (now : String) (fm fy : Option Int)
        (db : Doc),
      ((completedHandler parse now fm fy (some db)).response).map
          (fun r => r.2.map (fun e => e.base))
        = some (completedFiltered parse fm fy
            (evaluateProjectCompletionStatus now db.stages db.projects).1 db.stages)) := by
  refine ⟨?_, ?_, ?_, ?_⟩
  · intro parse m y projects stages p
    rcases hd : parse (p.completionDate.getD "") with _ | md
    · simp [completedFiltered, List.mem_filter, hd]
    · simp [completedFiltered, List.mem_filter, hd]
  · intro parse fm fy projects stages p hsome hparse hmem
    rcases fm with _ | m <;> rcases fy with _ | y
    · simp at hsome
    · simp [completedFiltered, List.mem_filter, hparse] at hmem
    · simp [completedFiltered, List.mem_filter, hparse] at hmem
    · simp [completedFiltered, List.mem_filter, hparse] at hmem
  · intro parse projects stages
    rfl
  · intro parse now fm fy db
    simp [completedHandler, List.map_map, Function.comp]
    exact List.map_id' _

/-- Witness for C8 (amended): with a month filter supplied, the
garbage-dated project is excluded. -/
theorem claim8_witness :
    ((some (5 : Int)).isSome || (none : Option Int).isSome) = true
  ∧ parseNoneW (projGarbage.completionDate.getD "") = none
  ∧ projGarbage ∉ completedFiltered parseNoneW (some 5) none [projGarbage] [stageDoneW] :=
  ⟨rfl, rfl,
   claim8_amended.2.1 parseNoneW (some 5) none [projGarbage] [stageDoneW] projGarbage rfl rfl⟩

theorem projShell_evalStep (now : String) (stages : List Stage) (p : Project) :
    projShell ((evalStep now stages p).1) = projShell p := by
  cases c : isProjectCompleted p.id stages <;>
    cases t : jsTruthyStr p.completionDate <;>
      simp [evalStep, projShell, c, t]

theorem evalPCS_shell (now : String) (stages : List Stage) :
    ∀ ps : List Project,
      ((evaluateProjectCompletionStatus now stages ps).1).map projShell
        = ps.map projShell := by
  intro ps
  induction ps with
  | nil => rfl
  | cons p ps ih =>
    simp [evaluateProjectCompletionStatus, ih, projShell_evalStep]

/-- C10.  The two read-only query endpoints persist the document on
every successful request (the `didWrite` flag is `true` whatever the
evaluator reported), while `/api/projects/evaluate` persists exactly
when the evaluator reports an update; and all three leave every stored
collection unchanged except the projects' derived `completionDate`
field (`docFrame`, the document minus that field, is preserved). -/
theorem claim10_get_effects :
    ∀ (parse : String → Option (Int × Int)) (now : String) (fm fy : Option Int)
      (db : Doc),
      (completedHandler parse now fm fy (some db)).didWrite = true
    ∧ (inProgressHandler now (some db)).didWrite = true
    ∧ (evaluateHandler now (some db)).didWrite
        = (evaluateProjectCompletionStatus now db.stages db.projects).2
    ∧ ((completedHandler parse now fm fy (some db)).db).map docFrame = some (docFrame db)
    ∧ ((inProgressHandler now (some db)).db).map docFrame = some (docFrame db)
    ∧ ((evaluateHandler now (some db)).db).map docFrame = some (docFrame db) := by
  intro parse now fm fy db
  refine ⟨rfl, rfl, rfl, ?_, ?_, ?_⟩
  · simp [completedHandler, docFrame, evalPCS_shell]
  · simp [inProgressHandler, docFrame, evalPCS_shell]
  · cases hu : (evaluateProjectCompletionStatus now db.stages db.projects).2
    · simp [evaluateHandler, hu, docFrame, evalPCS_shell]
    · simp [evaluateHandler, hu, docFrame, evalPCS_shell]

end PME
